import Mathlib

/- Verification development for gpu.js `src/core/utils-core.js` (UtilsCore).

The module is shallowly embedded: host-provided JavaScript values (canvas
objects, WebGL contexts, JSON values) are made explicit inductive data, JS
truthiness and the throwing behaviour of property access on `undefined`/`null`
are modelled explicitly, and the mutable object graph used by `UtilsCore.clone`
is modelled as an explicit heap of address-indexed objects. -/

deriving instance DecidableEq for Except

namespace GpuUtilsCore

/- ## JS chain results and truthiness

`isCanvas` (lines 45-52) returns the value of a `&&` chain, which in JS is the
first falsy operand (possibly `undefined` or `""`) or the last operand. -/

inductive JRes where
  | rBool (b : Bool)
  | rUndefined
  | rStr (s : String)
deriving DecidableEq, Repr

def JRes.truthy : JRes → Bool
  | .rBool b => b
  | .rUndefined => false
  | .rStr s => s != ""

/- ## Host data for canvas / WebGL probing

A host canvas-like object exposes an optional `nodeName` string, an optional
`getContext` member, and `width`/`height`.  The behaviour of `getContext` is
recorded as the host responses to the two context identifiers the source uses;
a response is the raw context (its resolvable extensions, each a handle or
absent) or `none` for a null response. -/

structure GlOptions where
  alpha : Bool
  depth : Bool
  antialias : Bool
deriving DecidableEq, Repr

structure RawCtx where
  extTexFloat : Option Nat
  extTexFloatLinear : Option Nat
  extUintIndex : Option Nat
  extDrawBuffers : Option Nat
deriving DecidableEq, Repr

structure GCBehavior where
  expRes : Option RawCtx
  stdRes : Option RawCtx
deriving DecidableEq, Repr

structure ObjShape where
  nodeName : Option String
  getContext : Option GCBehavior
  width : Nat
  height : Nat
deriving DecidableEq, Repr

inductive CanvasArg where
  | anull
  | aundefined
  | astr (s : String)
  | anum (n : Nat)
  | aobj (o : ObjShape)
deriving DecidableEq, Repr

/-- JS `String.prototype.toUpperCase`, modelled characterwise (sufficient for
ASCII tag names such as `canvas`). -/
def strUpper (s : String) : String := ⟨s.data.map Char.toUpper⟩

/-- Lines 45-52: `canvasObj !== null && canvasObj.nodeName && canvasObj.getContext
&& canvasObj.nodeName.toUpperCase() === 'CANVAS'`.  Property access on the
`undefined` argument throws a TypeError (`.error ()`); otherwise the chain value
is returned: `false` when the argument is null, the first falsy operand
(`undefined` for a missing member, `""` for an empty node name), or the final
boolean comparison. -/
def isCanvas : CanvasArg → Except Unit JRes
  | .anull => .ok (.rBool false)
  | .aundefined => .error ()
  | .astr _ => .ok .rUndefined
  | .anum _ => .ok .rUndefined
  | .aobj o =>
    match o.nodeName with
    | none => .ok .rUndefined
    | some nn =>
      if nn = "" then .ok (.rStr "")
      else
        match o.getContext with
        | none => .ok .rUndefined
        | some _ => .ok (.rBool (strUpper nn == "CANVAS"))

/-- Lines 157-163: `initWebGlDefaultOptions` returns
`{alpha: false, depth: false, antialias: false}`. -/
def initWebGlDefaultOptions : GlOptions := ⟨false, false, false⟩

/-- A WebGL context after `initWebGl` attached the three extension results
(lines 200-202) to it. -/
structure WebGlCtx where
  raw : RawCtx
  oesTextureFloat : Option Nat
  oesTextureFloatLinear : Option Nat
  oesElementIndexUint : Option Nat
deriving DecidableEq, Repr

inductive GlErr where
  | invalidCanvas
  | typeError
deriving DecidableEq, Repr

/-- Lines 194-197: the `||` chain of the two `getContext` calls, together with
the trace of `(identifier, options)` calls made.  `||` short-circuits: the
standard identifier is only tried when the legacy experimental one yields
null. -/
def webGlGetContext (gc : GCBehavior) : Option RawCtx × List (String × GlOptions) :=
  match gc.expRes with
  | some raw => (some raw, [("experimental-webgl", initWebGlDefaultOptions)])
  | none =>
    match gc.stdRes with
    | some raw =>
      (some raw, [("experimental-webgl", initWebGlDefaultOptions), ("webgl", initWebGlDefaultOptions)])
    | none =>
      (none, [("experimental-webgl", initWebGlDefaultOptions), ("webgl", initWebGlDefaultOptions)])

/-- Lines 200-205: attach the three extension lookups to the context and
return it. -/
def attachExts (raw : RawCtx) : WebGlCtx :=
  ⟨raw, raw.extTexFloat, raw.extTexFloatLinear, raw.extUintIndex⟩

/-- Lines 179-206, `initWebGl`, with the memoized `_isCanvasSupported` value
passed explicitly (`flag`).  After module initialization the memoized value is
whatever line 303 produced: `false` without a `document`, otherwise the
`isCanvas` chain value (a `JRes`).

Line 182-186: `if (typeof _isCanvasSupported !== 'undefined' || canvasObj ===
null) { if (!_isCanvasSupported) return null; }`.

Line 189-191: `if (!UtilsCore.isCanvas(canvasObj)) throw new Error('Invalid
canvas object - ...')`; `isCanvas` itself throws a TypeError on `undefined`.

Lines 194-205: the `getContext` fallback chain; when both identifiers yield
null, line 200 reads `getExtension` of `null`, which throws a TypeError.

The second component is the trace of `getContext` calls. -/
def initWebGl (flag : JRes) (canvasObj : CanvasArg) :
    Except GlErr (Option WebGlCtx) × List (String × GlOptions) :=
  if (flag ≠ .rUndefined ∨ canvasObj = .anull) ∧ flag.truthy = false then (.ok none, [])
  else
    match isCanvas canvasObj with
    | .error _ => (.error .typeError, [])
    | .ok r =>
      if r.truthy = false then (.error .invalidCanvas, [])
      else
        match canvasObj with
        | .aobj o =>
          match o.getContext with
          | some gc =>
            match webGlGetContext gc with
            | (some raw, tr) => (.ok (some (attachExts raw)), tr)
            | (none, tr) => (.error .typeError, tr)
          | none => (.error .typeError, [])
        | _ => (.error .typeError, [])

/-- Lines 121-135, `isWebGl`, applied to the probe result `_testingWebGl`
(line 305): `null` fails the `!== null` test, and a genuine context object
returned by `getContext` carries `getExtension` on its prototype, so the
structural check passes. -/
def isWebGl (webGlObj : Option WebGlCtx) : Bool :=
  webGlObj.isSome

/- ## Module initialization (lines 297-310) -/

structure HostEnv where
  hasDocument : Bool
  createdCanvas : ObjShape
deriving DecidableEq, Repr

structure Snapshot where
  canvasSupported : JRes
  webglSupported : Bool
  drawBuffersSupported : Bool
  oesTextureFloat : Option Nat
  oesTextureFloatLinear : Option Nat
  oesElementIndexUint : Option Nat
deriving DecidableEq, Repr

/-- Lines 81-96, `initCanvas`: null when the memoized support value is falsy,
otherwise a fresh canvas from `document.createElement('canvas')` with width and
height set to 2. -/
def initCanvas (flag : JRes) (env : HostEnv) : CanvasArg :=
  if flag.truthy = false then .anull
  else .aobj ⟨env.createdCanvas.nodeName, env.createdCanvas.getContext, 2, 2⟩

/-- Lines 303-310, the capability snapshot computed at module load:

line 303: `_isCanvasSupported = typeof document !== 'undefined' ?
UtilsCore.isCanvas(document.createElement('canvas')) : false`;

line 304: `_testingWebGl = UtilsCore.initWebGl(UtilsCore.initCanvas())`;

line 305: `_isWebGlSupported = UtilsCore.isWebGl(_testingWebGl)`;

line 306: `_isWebGlDrawBuffersSupported =
Boolean(_testingWebGl.getExtension('WEBGL_draw_buffers'))` — reading
`getExtension` of a null `_testingWebGl` throws a TypeError;

lines 308-310: the three extension fields copied from `_testingWebGl`. -/
def moduleInit (env : HostEnv) : Except GlErr Snapshot :=
  match (if env.hasDocument then isCanvas (.aobj env.createdCanvas) else .ok (.rBool false)) with
  | .error _ => .error .typeError
  | .ok flag =>
    match (initWebGl flag (initCanvas flag env)).1 with
    | .error e => .error e
    | .ok testingWebGl =>
      match testingWebGl with
      | none => .error .typeError
      | some ctx =>
        .ok ⟨flag, isWebGl testingWebGl, ctx.raw.extDrawBuffers.isSome,
          ctx.oesTextureFloat, ctx.oesTextureFloatLinear, ctx.oesElementIndexUint⟩

/- ## Kernel descriptor validation (lines 264-293) -/

/-- Possible values of a descriptor field (objects excluded: only the
`isKernelObj` field is ever inspected, with JS `!=`). -/
inductive MVal where
  | mUndefined
  | mNull
  | mBool (b : Bool)
  | mNum (n : Int)
  | mStr (s : String)
deriving DecidableEq, Repr

/-- Characters stripped as whitespace by `StringToNumber`: the ECMA
WhiteSpace and LineTerminator sets (tab, vertical tab, form feed, space,
no-break space, BOM, LF, CR, LS, PS; the remaining Unicode space separators
are abstracted away). -/
def isWs (c : Char) : Bool :=
  c == ' ' || c == '\t' || c == '\n' || c == '\r' || c == '\x0B' ||
  c == '\x0C' || c == '\u00A0' || c == '\uFEFF' || c == '\u2028' || c == '\u2029'

/-- Hex-digit value of a character (decimal digits included). -/
def digVal (c : Char) : Option Nat :=
  if c.isDigit then some (c.toNat - 48)
  else if 'a' ≤ c ∧ c ≤ 'f' then some (c.toNat - 87)
  else if 'A' ≤ c ∧ c ≤ 'F' then some (c.toNat - 55)
  else none

/-- Value of an all-digit run in the given radix; `none` when the run holds
any character that is not a digit of that radix. -/
def radixRun (radix : Nat) : List Char → Nat → Option Nat
  | [], acc => some acc
  | c :: rest, acc =>
    match digVal c with
    | some d => if d < radix then radixRun radix rest (radix * acc + d) else none
    | none => none

/-- The exact mathematical value `m · 10^e` of a finite numeric literal. -/
structure DecVal where
  m : Int
  e : Int
deriving DecidableEq, Repr

def intPow10 : Nat → Int
  | 0 => 1
  | n + 1 => 10 * intPow10 n

/-- Whether `m · 10^e` is exactly 1. -/
def DecVal.isOne (v : DecVal) : Bool :=
  if v.e < 0 then v.m == intPow10 (-v.e).toNat
  else v.m * intPow10 v.e.toNat == 1

/-- ECMA ExponentPart: an empty remainder means exponent 0; otherwise `e` or
`E`, an optional sign and a nonempty decimal digit run; anything else makes
the literal invalid. -/
def parseExpPart : List Char → Option Int
  | [] => some (0 : Int)
  | c :: rest =>
    if c == 'e' || c == 'E' then
      match rest with
      | '+' :: ds =>
        if ds.isEmpty then none else (radixRun 10 ds 0).map (fun n => (n : Int))
      | '-' :: ds =>
        if ds.isEmpty then none else (radixRun 10 ds 0).map (fun n => -(n : Int))
      | ds =>
        if ds.isEmpty then none else (radixRun 10 ds 0).map (fun n => (n : Int))
    else none

/-- ECMA StrUnsignedDecimalLiteral, valued exactly:
`DecimalDigits [. DecimalDigits] [ExponentPart]` or
`. DecimalDigits [ExponentPart]`; `Infinity` and malformed remainders give
`none` (see `strToNumber`). -/
def parseUnsignedDec (cs : List Char) : Option DecVal :=
  let intDigits := cs.takeWhile Char.isDigit
  let rest1 := cs.dropWhile Char.isDigit
  match rest1 with
  | '.' :: rest2 =>
    let fracDigits := rest2.takeWhile Char.isDigit
    let rest3 := rest2.dropWhile Char.isDigit
    if intDigits.isEmpty && fracDigits.isEmpty then none
    else
      match parseExpPart rest3, radixRun 10 (intDigits ++ fracDigits) 0 with
      | some e, some m => some ⟨(m : Int), e - (fracDigits.length : Int)⟩
      | _, _ => none
  | _ =>
    if intDigits.isEmpty then none
    else
      match parseExpPart rest1, radixRun 10 intDigits 0 with
      | some e, some m => some ⟨(m : Int), e⟩
      | _, _ => none

/-- ECMA NonDecimalIntegerLiteral: `0x`, `0o` or `0b` (either case) followed
by a nonempty digit run of the radix; a sign is not permitted before these. -/
def parseNonDec : List Char → Option DecVal
  | '0' :: c :: rest =>
    if c == 'x' || c == 'X' then
      if rest.isEmpty then none
      else (radixRun 16 rest 0).map (fun n => (⟨(n : Int), 0⟩ : DecVal))
    else if c == 'o' || c == 'O' then
      if rest.isEmpty then none
      else (radixRun 8 rest 0).map (fun n => (⟨(n : Int), 0⟩ : DecVal))
    else if c == 'b' || c == 'B' then
      if rest.isEmpty then none
      else (radixRun 2 rest 0).map (fun n => (⟨(n : Int), 0⟩ : DecVal))
    else none
  | _ => none

/-- ECMA `StringToNumber`, valued exactly: surrounding whitespace stripped, an
empty remainder is 0, an unsigned non-decimal integer literal or an
optionally-signed decimal literal (with fraction and exponent) yields its
exact mathematical value `m · 10^e`.  `none` stands for NaN and also for
`±Infinity`: the sole consumer (`looseEqTrue`) compares the value against 1,
and neither NaN nor an infinity equals 1.  The host's rounding of the
literal's value to binary64 is abstracted to exact arithmetic: every literal
of exact value 1 — "1", " 1 ", "1.", "1.0", "1e0", "0.1e1", "10e-1", "0x1",
"0o1", "0b1" — equals 1 here exactly as in the host; a literal that is not
exactly 1 yet rounds to the double 1.0 (more than about 17 significant
digits) lies outside the model, floating-point representation being out of
scope. -/
def strToNumber (s : String) : Option DecVal :=
  match ((s.data.dropWhile isWs).reverse.dropWhile isWs).reverse with
  | [] => some ⟨0, 0⟩
  | t =>
    match parseNonDec t with
    | some v => some v
    | none =>
      match t with
      | '-' :: rest => (parseUnsignedDec rest).map (fun v => (⟨-v.m, v.e⟩ : DecVal))
      | '+' :: rest => parseUnsignedDec rest
      | _ => parseUnsignedDec t

/-- JS abstract (loose) equality `x == true`, as used by line 287
(`kernelObj.isKernelObj != true`): `true` is coerced to the number 1, numbers
compare directly, strings are compared via their `StringToNumber` value
(never equal for NaN or an infinity), and `undefined`/`null` are never
loosely equal to a number. -/
def looseEqTrue : MVal → Bool
  | .mUndefined => false
  | .mNull => false
  | .mBool b => b
  | .mNum n => n == 1
  | .mStr s =>
    match strToNumber s with
    | some v => v.isOne
    | none => false

/-- A decoded JSON value or structured descriptor. -/
inductive KVal where
  | knull
  | kbool (b : Bool)
  | knum (n : Int)
  | kstr (s : String)
  | kobj (fields : List (String × MVal))
deriving DecidableEq, Repr

/-- Reading `kernelObj.isKernelObj`: the field value of an object (or
`undefined` when the field is absent), and `undefined` for primitive values.
(`null` never reaches this read: line 267 rejects it first.) -/
def KVal.markerVal : KVal → MVal
  | .kobj fields => (((fields.find? (fun p => p.1 == "isKernelObj")).map (fun p => p.2)).getD .mUndefined)
  | _ => .mUndefined

/-- The validator input: `undefined`, or any JS value (JS `null` is
`kval .knull`; a string input is `kval (.kstr s)`). -/
inductive KInput where
  | kundefined
  | kval (v : KVal)
deriving DecidableEq, Repr

/-- The four throw sites of `validateKernelObj`, by source line:
line 268 ("KernelObj being validated is NULL"), line 277 ("Failed to convert
KernelObj from JSON string"), line 282 ("Invalid (NULL) KernelObj JSON string
representation"), line 288 ("Failed missing isKernelObj flag check"). -/
inductive VErr where
  | nullDescriptor
  | malformed
  | nullString
  | missingMarker
deriving DecidableEq, Repr

/-- Lines 264-293, `validateKernelObj`, with `JSON.parse` supplied as the host
collaborator `parse` (`.error` models a parse throw).  `kernelObj == null`
(line 267) is loose equality, so it also catches `undefined`.  A string input
is decoded, a decoded null rejected (line 281), and the marker check
(line 287) uses loose inequality `!=`. -/
def validateKernelObj (parse : String → Except Unit KVal) : KInput → Except VErr KVal
  | .kundefined => .error .nullDescriptor
  | .kval .knull => .error .nullDescriptor
  | .kval (.kstr s) =>
    match parse s with
    | .error _ => .error .malformed
    | .ok .knull => .error .nullString
    | .ok v => if looseEqTrue v.markerVal then .ok v else .error .missingMarker
  | .kval v => if looseEqTrue v.markerVal then .ok v else .error .missingMarker

/- ## Object heap and the clone algorithm (lines 226-240)

`clone` mutates the object graph (it temporarily attaches `isActiveClone` to
the source), so the graph is modelled as a heap: addresses map to objects, an
object is an insertion-ordered association list of own enumerable properties
plus a `ctorOk` flag recording whether `obj.constructor()` (line 229) succeeds
and yields a fresh empty object (plain records) or throws (e.g. an object whose
constructor cannot be invoked without `new`). -/

abbrev Addr := Nat

inductive HVal where
  | vnull
  | vprim (n : Nat)
  | vref (a : Addr)
deriving DecidableEq, Repr

structure HObj where
  fields : List (String × HVal)
  ctorOk : Bool
deriving DecidableEq, Repr

/-- Association-list read (first match), the shape of JS property lookup. -/
def getS : List (String × HVal) → String → Option HVal
  | [], _ => none
  | p :: ps, k => if p.1 = k then some p.2 else getS ps k

/-- JS property assignment: replace in place when the key exists, append in
insertion order otherwise. -/
def setS : List (String × HVal) → String → HVal → List (String × HVal)
  | [], k, v => [(k, v)]
  | p :: ps, k, v => if p.1 = k then (k, v) :: ps else p :: setS ps k v

/-- `obj.hasOwnProperty('isActiveClone')` (line 227). -/
def HObj.hasMarker (o : HObj) : Bool :=
  o.fields.any (fun p => p.1 == "isActiveClone")

/-- `obj.isActiveClone = null` / `temp[key] = v` — property assignment. -/
def HObj.setField (o : HObj) (k : String) (v : HVal) : HObj :=
  ⟨setS o.fields k v, o.ctorOk⟩

/-- `obj[key]` (an absent key would read as `undefined`; the algorithm only
reads keys it enumerated, so the default is never exercised). -/
def HObj.getField (o : HObj) (k : String) : HVal :=
  (getS o.fields k).getD .vnull

/-- `delete obj.isActiveClone` (line 235): removes the own property when
present, no-op otherwise. -/
def HObj.delMarker (o : HObj) : HObj :=
  ⟨o.fields.filter (fun p => p.1 != "isActiveClone"), o.ctorOk⟩

def getA : List (Addr × HObj) → Addr → Option HObj
  | [], _ => none
  | p :: ps, a => if p.1 = a then some p.2 else getA ps a

def setA : List (Addr × HObj) → Addr → HObj → List (Addr × HObj)
  | [], _, _ => []
  | p :: ps, a, o => if p.1 = a then (a, o) :: ps else p :: setA ps a o

structure Heap where
  mem : List (Addr × HObj)
  next : Addr
deriving DecidableEq, Repr

def Heap.lookup (h : Heap) (a : Addr) : Option HObj := getA h.mem a

def Heap.update (h : Heap) (a : Addr) (o : HObj) : Heap := ⟨setA h.mem a o, h.next⟩

def Heap.alloc (h : Heap) (o : HObj) : Heap × Addr :=
  (⟨h.mem ++ [(h.next, o)], h.next + 1⟩, h.next)

/-- A well-formed heap: distinct addresses, all below the allocation bound. -/
def Heap.Valid (h : Heap) : Prop :=
  (h.mem.map Prod.fst).Nodup ∧ ∀ p ∈ h.mem, p.1 < h.next

instance (h : Heap) : Decidable h.Valid := by
  unfold Heap.Valid
  infer_instance

inductive CloneErr where
  | fuel
  | dangling
  | ctorThrow
deriving DecidableEq, Repr

/-- Lines 231-237, the body of the `for (let key in obj)` loop, one step per
enumerated own key (keys are snapshotted at loop entry; the transient
`isActiveClone` property is attached and removed within each step and is not
enumerated).  Each step, in source order:
`obj.isActiveClone = null` — mark the source;
`temp[key] = UtilsCore.clone(obj[key])` — recursive clone, then assignment;
`delete obj.isActiveClone` — unmark the source.
An error from the recursive call propagates immediately: the `delete` of the
key in flight does not run.  `recur` is the enclosing clone at its current
fuel.  The heap is returned on every path so that mutations survive a throw. -/
def cloneStep (recur : Heap → HVal → Heap × Except CloneErr HVal) :
    Heap → Addr → Addr → List String → Heap × Except CloneErr Unit
  | h, _, _, [] => (h, .ok ())
  | h, a, t, k :: ks =>
    match h.lookup a with
    | none => (h, .error .dangling)
    | some o =>
      let h1 := h.update a (o.setField "isActiveClone" .vnull)
      let childv := match h1.lookup a with
        | some o1 => o1.getField k
        | none => .vnull
      match recur h1 childv with
      | (h2, .error e) => (h2, .error e)
      | (h2, .ok w) =>
        let h3 := match h2.lookup t with
          | some tempo => h2.update t (tempo.setField k w)
          | none => h2
        let h4 := match h3.lookup a with
          | some oa => h3.update a oa.delMarker
          | none => h3
        cloneStep recur h4 a t ks

/-- Lines 226-240, `UtilsCore.clone`, with fuel (a modelling artifact: the
source recursion is unbounded, and all results below are established with
sufficient fuel).

Line 227: null and primitives are returned unchanged, and so is any object
already bearing an own `isActiveClone` property (the cycle-breaking rule).
Line 229: `temp = obj.constructor()` — throws when the constructor is not
invocable, otherwise yields a fresh empty object.
Lines 231-237: the key loop (`cloneStep`) over the snapshot of own keys.
Line 239: the fresh object is returned. -/
def cloneF : Nat → Heap → HVal → Heap × Except CloneErr HVal
  | 0, h, _ => (h, .error .fuel)
  | f + 1, h, v =>
    match v with
    | .vnull => (h, .ok .vnull)
    | .vprim n => (h, .ok (.vprim n))
    | .vref a =>
      match h.lookup a with
      | none => (h, .error .dangling)
      | some o =>
        if o.hasMarker then (h, .ok (.vref a))
        else if o.ctorOk = false then (h, .error .ctorThrow)
        else
          let ht := h.alloc ⟨[], true⟩
          match cloneStep (cloneF f) ht.1 a ht.2 (o.fields.map Prod.fst) with
          | (h2, .ok ()) => (h2, .ok (.vref ht.2))
          | (h2, .error e) => (h2, .error e)

/- ## Acyclic composite values as trees

The round-trip property quantifies over acyclic composite values built from
primitives, null, and nested plain records; these are exactly the finite
trees below.  `reprT av lo hi h v t` says the heap value `v` represents the
tree `t`: every record node is backed by a heap object whose constructor is
invocable, which carries no `isActiveClone` own property, whose keys are
distinct, at an address in `[lo, hi)` and outside the excluded list `av`. -/

mutual
inductive Tree where
  | tnull
  | tprim (n : Nat)
  | trec (fields : Fields)
inductive Fields where
  | fnil
  | fcons (k : String) (t : Tree) (rest : Fields)
end

mutual
def sizeT : Tree → Nat
  | .tnull => 1
  | .tprim _ => 1
  | .trec fs => sizeF fs + 1
def sizeF : Fields → Nat
  | .fnil => 0
  | .fcons _ t rest => sizeT t + sizeF rest
end

/- Fuel sufficient for `cloneF` on a value representing the given tree. -/
mutual
def needT : Tree → Nat
  | .tnull => 1
  | .tprim _ => 1
  | .trec fs => needF fs + 1
def needF : Fields → Nat
  | .fnil => 0
  | .fcons _ t rest => max (needT t) (needF rest)
end

mutual
def reprT (av : List Addr) (lo hi : Nat) (h : Heap) : HVal → Tree → Bool
  | .vnull, .tnull => true
  | .vprim n, .tprim m => n == m
  | .vref a, .trec fs =>
    decide (lo ≤ a) && decide (a < hi) && decide (a ∉ av) &&
    (match h.lookup a with
     | none => false
     | some o =>
       o.ctorOk && !o.hasMarker && decide ((o.fields.map Prod.fst).Nodup) &&
       reprF av lo hi h o.fields fs)
  | _, _ => false
def reprF (av : List Addr) (lo hi : Nat) (h : Heap) : List (String × HVal) → Fields → Bool
  | [], .fnil => true
  | (k, v) :: rest, .fcons k2 t fs =>
    (k == k2) && reprT av lo hi h v t && reprF av lo hi h rest fs
  | _, _ => false
end

/- ## Association-list and heap lemmas -/

theorem getA_setA_ne {l : List (Addr × HObj)} {a b : Addr} {o : HObj} (hne : b ≠ a) :
    getA (setA l a o) b = getA l b := by
  induction l with
  | nil => rfl
  | cons p ps ih =>
    by_cases hp : p.1 = a
    · simp [setA, getA, hp, hne, Ne.symm hne]
    · simp only [setA, getA, if_neg hp]
      by_cases hb : p.1 = b
      · simp [getA, hb]
      · simp [getA, hb, ih]

theorem getA_setA_self {l : List (Addr × HObj)} {a : Addr} {o o' : HObj}
    (hsome : getA l a = some o') : getA (setA l a o) a = some o := by
  induction l with
  | nil => simp [getA] at hsome
  | cons p ps ih =>
    by_cases hp : p.1 = a
    · simp [setA, getA, hp]
    · simp only [getA, if_neg hp] at hsome
      simp [setA, getA, hp, ih hsome]

theorem setA_map_fst (l : List (Addr × HObj)) (a : Addr) (o : HObj) :
    (setA l a o).map Prod.fst = l.map Prod.fst := by
  induction l with
  | nil => rfl
  | cons p ps ih =>
    by_cases hp : p.1 = a
    · simp [setA, hp]
    · simp [setA, hp, ih]

theorem getA_append_some {l l2 : List (Addr × HObj)} {b : Addr} {o : HObj}
    (hsome : getA l b = some o) : getA (l ++ l2) b = some o := by
  induction l with
  | nil => simp [getA] at hsome
  | cons p ps ih =>
    by_cases hp : p.1 = b
    · simp only [getA, if_pos hp] at hsome
      simp [getA, hp, hsome]
    · simp only [getA, if_neg hp] at hsome
      simp [getA, hp, ih hsome]

theorem getA_append_none {l l2 : List (Addr × HObj)} {b : Addr}
    (hnone : getA l b = none) : getA (l ++ l2) b = getA l2 b := by
  induction l with
  | nil => rfl
  | cons p ps ih =>
    by_cases hp : p.1 = b
    · simp [getA, hp] at hnone
    · simp only [getA, if_neg hp] at hnone
      simp [getA, hp, ih hnone]

theorem getA_none_of_lt {l : List (Addr × HObj)} {n : Addr}
    (hb : ∀ p ∈ l, p.1 < n) : getA l n = none := by
  induction l with
  | nil => rfl
  | cons p ps ih =>
    have h1 : p.1 < n := hb p (List.mem_cons_self p ps)
    simp only [getA, if_neg (Nat.ne_of_lt h1)]
    exact ih (fun q hq => hb q (List.mem_cons_of_mem p hq))

theorem getA_mem {l : List (Addr × HObj)} {a : Addr} {o : HObj}
    (hsome : getA l a = some o) : (a, o) ∈ l := by
  induction l with
  | nil => simp [getA] at hsome
  | cons p ps ih =>
    by_cases hp : p.1 = a
    · simp only [getA, if_pos hp] at hsome
      cases p with
      | mk pa po =>
        simp only at hp hsome
        subst hp
        cases hsome
        exact List.mem_cons_self _ _
    · simp only [getA, if_neg hp] at hsome
      exact List.mem_cons_of_mem p (ih hsome)

theorem Heap.lookup_update_self {h : Heap} {a : Addr} {o o' : HObj}
    (hsome : h.lookup a = some o') : (h.update a o).lookup a = some o :=
  getA_setA_self hsome

theorem Heap.lookup_update_ne {h : Heap} {a b : Addr} {o : HObj} (hne : b ≠ a) :
    (h.update a o).lookup b = h.lookup b :=
  getA_setA_ne hne

@[simp] theorem Heap.update_next (h : Heap) (a : Addr) (o : HObj) :
    (h.update a o).next = h.next := rfl

@[simp] theorem Heap.alloc_next (h : Heap) (o : HObj) :
    (h.alloc o).1.next = h.next + 1 := rfl

@[simp] theorem Heap.alloc_addr (h : Heap) (o : HObj) :
    (h.alloc o).2 = h.next := rfl

theorem Heap.lookup_lt_next {h : Heap} {a : Addr} {o : HObj}
    (hv : h.Valid) (hsome : h.lookup a = some o) : a < h.next :=
  hv.2 (a, o) (getA_mem hsome)

theorem Heap.lookup_alloc_ne {h : Heap} {o : HObj} {b : Addr} (hne : b ≠ h.next) :
    (h.alloc o).1.lookup b = h.lookup b := by
  unfold Heap.alloc Heap.lookup
  simp only
  cases hg : getA h.mem b with
  | some x => exact getA_append_some hg
  | none =>
    rw [getA_append_none hg]
    simp [getA, Ne.symm hne]

theorem Heap.lookup_alloc_self {h : Heap} {o : HObj} (hv : h.Valid) :
    (h.alloc o).1.lookup h.next = some o := by
  unfold Heap.alloc Heap.lookup
  simp only
  rw [getA_append_none (getA_none_of_lt (fun p hp => hv.2 p hp))]
  simp [getA]

theorem Heap.valid_update {h : Heap} {a : Addr} {o : HObj} (hv : h.Valid) :
    (h.update a o).Valid := by
  constructor
  · rw [show (h.update a o).mem = setA h.mem a o from rfl, setA_map_fst]
    exact hv.1
  · intro p hp
    rw [Heap.update_next]
    have hmem : p.1 ∈ (setA h.mem a o).map Prod.fst := List.mem_map_of_mem Prod.fst hp
    rw [setA_map_fst] at hmem
    obtain ⟨q, hq, hq1⟩ := List.mem_map.mp hmem
    exact hq1 ▸ hv.2 q hq

theorem Heap.valid_alloc {h : Heap} {o : HObj} (hv : h.Valid) :
    (h.alloc o).1.Valid := by
  constructor
  · rw [show (h.alloc o).1.mem = h.mem ++ [(h.next, o)] from rfl]
    rw [List.map_append, List.nodup_append]
    refine ⟨hv.1, List.nodup_singleton _, ?_⟩
    intro x hx hy
    simp only [List.map_cons, List.map_nil, List.mem_singleton] at hy
    obtain ⟨q, hq, hq1⟩ := List.mem_map.mp hx
    exact absurd (hy ▸ hq1 ▸ hv.2 q hq) (Nat.lt_irrefl _)
  · intro p hp
    rw [Heap.alloc_next]
    rcases List.mem_append.mp hp with hmem | hmem
    · exact Nat.lt_succ_of_lt (hv.2 p hmem)
    · simp only [List.mem_singleton] at hmem
      subst hmem
      exact Nat.lt_succ_self _

/- ## Field-list and marker lemmas -/

theorem getS_append_some {l l2 : List (String × HVal)} {k : String} {v : HVal}
    (hsome : getS l k = some v) : getS (l ++ l2) k = some v := by
  induction l with
  | nil => simp [getS] at hsome
  | cons p ps ih =>
    by_cases hp : p.1 = k
    · simp only [getS, if_pos hp] at hsome
      simp [getS, hp, hsome]
    · simp only [getS, if_neg hp] at hsome
      simp [getS, hp, ih hsome]

theorem getS_append_none {l l2 : List (String × HVal)} {k : String}
    (hnone : getS l k = none) : getS (l ++ l2) k = getS l2 k := by
  induction l with
  | nil => rfl
  | cons p ps ih =>
    by_cases hp : p.1 = k
    · simp [getS, hp] at hnone
    · simp only [getS, if_neg hp] at hnone
      simp [getS, hp, ih hnone]

theorem setS_absent {l : List (String × HVal)} {k : String} {v : HVal}
    (hnone : getS l k = none) : setS l k v = l ++ [(k, v)] := by
  induction l with
  | nil => rfl
  | cons p ps ih =>
    by_cases hp : p.1 = k
    · simp [getS, hp] at hnone
    · simp only [getS, if_neg hp] at hnone
      simp [setS, hp, ih hnone]

theorem getS_none_of_ne {l : List (String × HVal)} {k : String}
    (hall : ∀ p ∈ l, p.1 ≠ k) : getS l k = none := by
  induction l with
  | nil => rfl
  | cons p ps ih =>
    simp only [getS, if_neg (hall p (List.mem_cons_self p ps))]
    exact ih (fun q hq => hall q (List.mem_cons_of_mem p hq))

theorem getS_some_of_nodup {l : List (String × HVal)} {k : String} {v : HVal}
    (hnd : (l.map Prod.fst).Nodup) (hmem : (k, v) ∈ l) : getS l k = some v := by
  induction l with
  | nil => simp at hmem
  | cons p ps ih =>
    rcases List.mem_cons.mp hmem with heq | hmem2
    · subst heq
      simp [getS]
    · have hp : p.1 ≠ k := by
        intro hk
        have : k ∈ ps.map Prod.fst := List.mem_map_of_mem Prod.fst hmem2
        rw [List.map_cons, List.nodup_cons] at hnd
        exact hnd.1 (hk ▸ this)
      simp only [getS, if_neg hp]
      exact ih (by rw [List.map_cons, List.nodup_cons] at hnd; exact hnd.2) hmem2

/-- An object without the marker has no field named `isActiveClone`. -/
theorem no_marker_field {o : HObj} (hm : o.hasMarker = false) :
    ∀ p ∈ o.fields, p.1 ≠ "isActiveClone" := by
  intro p hp
  have := List.any_eq_false.mp hm p hp
  simpa using this

/-- Attaching the marker to a marker-free object appends it. -/
theorem setMarker_fields {o : HObj} (hm : o.hasMarker = false) :
    (o.setField "isActiveClone" .vnull).fields = o.fields ++ [("isActiveClone", .vnull)] :=
  setS_absent (getS_none_of_ne (no_marker_field hm))

/-- Removing the marker right after attaching it restores a marker-free object
exactly (the `delete` in line 235 undoes the assignment in line 233). -/
theorem delMarker_setMarker {o : HObj} (hm : o.hasMarker = false) :
    (o.setField "isActiveClone" .vnull).delMarker = o := by
  cases o with
  | mk fields ctorOk =>
    have hfields := setMarker_fields hm
    simp only [HObj.delMarker, HObj.setField] at hfields ⊢
    rw [show setS fields "isActiveClone" HVal.vnull =
        fields ++ [("isActiveClone", HVal.vnull)] from hfields]
    rw [List.filter_append]
    have h1 : List.filter (fun p => p.1 != "isActiveClone") fields = fields := by
      apply List.filter_eq_self.mpr
      intro p hp
      simpa using no_marker_field hm p hp
    have h2 : List.filter (fun p => p.1 != "isActiveClone")
        [(("isActiveClone" : String), HVal.vnull)] = [] := by decide
    rw [h1, h2, List.append_nil]

/-- Reading an original key through the attached marker is unaffected: the
marker is appended at the end, original keys are found first. -/
theorem getField_setMarker {o : HObj} {k : String} {v : HVal} (hm : o.hasMarker = false)
    (hget : getS o.fields k = some v) :
    (o.setField "isActiveClone" .vnull).getField k = v := by
  simp only [HObj.getField, HObj.setField]
  rw [show setS o.fields "isActiveClone" HVal.vnull =
      o.fields ++ [("isActiveClone", HVal.vnull)] from setMarker_fields hm]
  rw [getS_append_some hget]
  rfl

theorem setMarker_hasMarker (o : HObj) :
    (o.setField "isActiveClone" .vnull).hasMarker = true := by
  simp only [HObj.hasMarker, HObj.setField]
  induction o.fields with
  | nil => simp [setS]
  | cons p ps ih =>
    by_cases hp : p.1 = "isActiveClone"
    · simp [setS, hp]
    · simp only [setS, if_neg hp, List.any_cons]
      rw [ih]
      simp

/- ## Representation-predicate lemmas -/

theorem reprT_vref_iff {av : List Addr} {lo hi : Nat} {h : Heap} {a : Addr} {fs : Fields}
    {o : HObj} (hlook : h.lookup a = some o) :
    reprT av lo hi h (.vref a) (.trec fs) = true ↔
      lo ≤ a ∧ a < hi ∧ a ∉ av ∧ o.ctorOk = true ∧ o.hasMarker = false ∧
      (o.fields.map Prod.fst).Nodup ∧ reprF av lo hi h o.fields fs = true := by
  simp only [reprT, hlook, Bool.and_eq_true, decide_eq_true_eq, Bool.not_eq_true']
  tauto

theorem reprT_vref_none {av : List Addr} {lo hi : Nat} {h : Heap} {a : Addr} {fs : Fields}
    (hlook : h.lookup a = none) :
    reprT av lo hi h (.vref a) (.trec fs) = false := by
  simp [reprT, hlook]

@[simp] theorem reprF_nil_fnil {av : List Addr} {lo hi : Nat} {h : Heap} :
    reprF av lo hi h [] .fnil = true := rfl

@[simp] theorem reprF_nil_fcons {av : List Addr} {lo hi : Nat} {h : Heap}
    {k : String} {t : Tree} {fs : Fields} :
    reprF av lo hi h [] (.fcons k t fs) = false := rfl

@[simp] theorem reprF_cons_fnil {av : List Addr} {lo hi : Nat} {h : Heap}
    {p : String × HVal} {rest : List (String × HVal)} :
    reprF av lo hi h (p :: rest) .fnil = false := by
  cases p
  rfl

theorem reprF_cons_iff {av : List Addr} {lo hi : Nat} {h : Heap}
    {k : String} {v : HVal} {rest : List (String × HVal)}
    {k2 : String} {t : Tree} {fs : Fields} :
    reprF av lo hi h ((k, v) :: rest) (.fcons k2 t fs) = true ↔
      k = k2 ∧ reprT av lo hi h v t = true ∧ reprF av lo hi h rest fs = true := by
  simp only [reprF, Bool.and_eq_true, beq_iff_eq]
  tauto

@[simp] theorem reprT_vnull_tnull {av : List Addr} {lo hi : Nat} {h : Heap} :
    reprT av lo hi h .vnull .tnull = true := rfl

@[simp] theorem reprT_vprim_tprim {av : List Addr} {lo hi : Nat} {h : Heap} {n m : Nat} :
    reprT av lo hi h (.vprim n) (.tprim m) = (n == m) := rfl

/- Representation is preserved by any heap change that leaves the addresses in
range (and not excluded) untouched. -/

mutual

theorem reprT_mono_heap {av : List Addr} {lo hi : Nat} {h h2 : Heap}
    (hpres : ∀ b, b ∉ av → lo ≤ b → b < hi → h2.lookup b = h.lookup b) :
    ∀ (t : Tree) (v : HVal), reprT av lo hi h v t = true → reprT av lo hi h2 v t = true
  | .tnull, v, hr => by cases v <;> simp_all [reprT]
  | .tprim m, v, hr => by cases v <;> simp_all [reprT]
  | .trec fs, v, hr => by
    cases v with
    | vnull => simp [reprT] at hr
    | vprim n => simp [reprT] at hr
    | vref a =>
      cases hlook : h.lookup a with
      | none => rw [reprT_vref_none hlook] at hr; cases hr
      | some o =>
        rw [reprT_vref_iff hlook] at hr
        obtain ⟨h1, ha, h3, h4, h5, h6, h7⟩ := hr
        have hlook2 : h2.lookup a = some o := by rw [hpres a h3 h1 ha, hlook]
        rw [reprT_vref_iff hlook2]
        exact ⟨h1, ha, h3, h4, h5, h6, reprF_mono_heap hpres fs o.fields h7⟩

theorem reprF_mono_heap {av : List Addr} {lo hi : Nat} {h h2 : Heap}
    (hpres : ∀ b, b ∉ av → lo ≤ b → b < hi → h2.lookup b = h.lookup b) :
    ∀ (fs : Fields) (l : List (String × HVal)),
      reprF av lo hi h l fs = true → reprF av lo hi h2 l fs = true
  | .fnil, [], _ => rfl
  | .fnil, p :: rest, hr => by simp at hr
  | .fcons k2 t fsr, [], hr => by simp at hr
  | .fcons k2 t fsr, (k, v) :: rest, hr => by
    rw [reprF_cons_iff] at hr ⊢
    exact ⟨hr.1, reprT_mono_heap hpres t v hr.2.1, reprF_mono_heap hpres fsr rest hr.2.2⟩

end

/- Representation is monotone in the bounds and antitone in the excluded
list. -/

mutual

theorem reprT_mono_bounds {av av2 : List Addr} {lo hi lo2 hi2 : Nat} {h : Heap}
    (hlo : lo2 ≤ lo) (hhi : hi ≤ hi2) (hav : ∀ b, b ∉ av → b ∉ av2) :
    ∀ (t : Tree) (v : HVal), reprT av lo hi h v t = true → reprT av2 lo2 hi2 h v t = true
  | .tnull, v, hr => by cases v <;> simp_all [reprT]
  | .tprim m, v, hr => by cases v <;> simp_all [reprT]
  | .trec fs, v, hr => by
    cases v with
    | vnull => simp [reprT] at hr
    | vprim n => simp [reprT] at hr
    | vref a =>
      cases hlook : h.lookup a with
      | none => rw [reprT_vref_none hlook] at hr; cases hr
      | some o =>
        rw [reprT_vref_iff hlook] at hr
        obtain ⟨h1, ha, h3, h4, h5, h6, h7⟩ := hr
        rw [reprT_vref_iff hlook]
        exact ⟨Nat.le_trans hlo h1, Nat.lt_of_lt_of_le ha hhi, hav a h3, h4, h5, h6,
          reprF_mono_bounds hlo hhi hav fs o.fields h7⟩

theorem reprF_mono_bounds {av av2 : List Addr} {lo hi lo2 hi2 : Nat} {h : Heap}
    (hlo : lo2 ≤ lo) (hhi : hi ≤ hi2) (hav : ∀ b, b ∉ av → b ∉ av2) :
    ∀ (fs : Fields) (l : List (String × HVal)),
      reprF av lo hi h l fs = true → reprF av2 lo2 hi2 h l fs = true
  | .fnil, [], _ => rfl
  | .fnil, p :: rest, hr => by simp at hr
  | .fcons k2 t fsr, [], hr => by simp at hr
  | .fcons k2 t fsr, (k, v) :: rest, hr => by
    rw [reprF_cons_iff] at hr ⊢
    exact ⟨hr.1, reprT_mono_bounds hlo hhi hav t v hr.2.1,
      reprF_mono_bounds hlo hhi hav fsr rest hr.2.2⟩

end

/- Addresses below the lower bound can always be excluded. -/

mutual

theorem reprT_strengthen_av {av : List Addr} {lo hi : Nat} {h : Heap}
    (hav : ∀ x ∈ av, x < lo) :
    ∀ (t : Tree) (v : HVal), reprT [] lo hi h v t = true → reprT av lo hi h v t = true
  | .tnull, v, hr => by cases v <;> simp_all [reprT]
  | .tprim m, v, hr => by cases v <;> simp_all [reprT]
  | .trec fs, v, hr => by
    cases v with
    | vnull => simp [reprT] at hr
    | vprim n => simp [reprT] at hr
    | vref a =>
      cases hlook : h.lookup a with
      | none => rw [reprT_vref_none hlook] at hr; cases hr
      | some o =>
        rw [reprT_vref_iff hlook] at hr
        obtain ⟨h1, ha, _, h4, h5, h6, h7⟩ := hr
        rw [reprT_vref_iff hlook]
        refine ⟨h1, ha, ?_, h4, h5, h6, reprF_strengthen_av hav fs o.fields h7⟩
        intro hmem
        exact absurd h1 (Nat.not_le_of_lt (hav a hmem))

theorem reprF_strengthen_av {av : List Addr} {lo hi : Nat} {h : Heap}
    (hav : ∀ x ∈ av, x < lo) :
    ∀ (fs : Fields) (l : List (String × HVal)),
      reprF [] lo hi h l fs = true → reprF av lo hi h l fs = true
  | .fnil, [], _ => rfl
  | .fnil, p :: rest, hr => by simp at hr
  | .fcons k2 t fsr, [], hr => by simp at hr
  | .fcons k2 t fsr, (k, v) :: rest, hr => by
    rw [reprF_cons_iff] at hr ⊢
    exact ⟨hr.1, reprT_strengthen_av hav t v hr.2.1,
      reprF_strengthen_av hav fsr rest hr.2.2⟩

end

/- A heap value represents at most one tree (cycles reachable from a value
admit no finite tree at all). -/

mutual

theorem reprT_functional {av1 av2 : List Addr} {lo1 hi1 lo2 hi2 : Nat} {h : Heap} :
    ∀ (t1 t2 : Tree) (v : HVal),
      reprT av1 lo1 hi1 h v t1 = true → reprT av2 lo2 hi2 h v t2 = true → t1 = t2
  | .tnull, t2, v, h1, h2 => by cases v <;> cases t2 <;> simp_all [reprT]
  | .tprim m, t2, v, h1, h2 => by cases v <;> cases t2 <;> simp_all [reprT]
  | .trec fs1, t2, v, h1, h2 => by
    cases v with
    | vnull => simp [reprT] at h1
    | vprim n => simp [reprT] at h1
    | vref a =>
      cases t2 with
      | tnull => simp [reprT] at h2
      | tprim m => simp [reprT] at h2
      | trec fs2 =>
        cases hlook : h.lookup a with
        | none => rw [reprT_vref_none hlook] at h1; cases h1
        | some o =>
          rw [reprT_vref_iff hlook] at h1 h2
          have := reprF_functional fs1 fs2 o.fields h1.2.2.2.2.2.2 h2.2.2.2.2.2.2
          rw [this]

theorem reprF_functional {av1 av2 : List Addr} {lo1 hi1 lo2 hi2 : Nat} {h : Heap} :
    ∀ (fs1 fs2 : Fields) (l : List (String × HVal)),
      reprF av1 lo1 hi1 h l fs1 = true → reprF av2 lo2 hi2 h l fs2 = true → fs1 = fs2
  | .fnil, fs2, l, h1, h2 => by
    cases l with
    | nil => cases fs2 with
      | fnil => rfl
      | fcons k t fsr => simp at h2
    | cons p rest => simp at h1
  | .fcons k1 t1 fsr1, fs2, l, h1, h2 => by
    cases l with
    | nil => simp at h1
    | cons p rest =>
      cases p with
      | mk k v =>
        cases fs2 with
        | fnil => simp at h2
        | fcons k2 t2 fsr2 =>
          rw [reprF_cons_iff] at h1 h2
          obtain ⟨hk1, hT1, hF1⟩ := h1
          obtain ⟨hk2, hT2, hF2⟩ := h2
          subst hk1
          subst hk2
          rw [reprT_functional t1 t2 v hT1 hT2, reprF_functional fsr1 fsr2 rest hF1 hF2]

end

/- Either a derivation avoids the address `a` entirely, or it contains a
sub-derivation rooted at `a` of no larger size. -/

mutual

theorem reprT_avoid_or_occurs {lo hi : Nat} {h : Heap} (a : Addr) :
    ∀ (t : Tree) (v : HVal), reprT [] lo hi h v t = true →
      reprT [a] lo hi h v t = true ∨
      ∃ t2, sizeT t2 ≤ sizeT t ∧ reprT [] lo hi h (.vref a) t2 = true
  | .tnull, v, hr => by
    cases v with
    | vnull => exact Or.inl rfl
    | vprim n => simp [reprT] at hr
    | vref b => simp [reprT] at hr
  | .tprim m, v, hr => by
    cases v with
    | vnull => simp [reprT] at hr
    | vprim n => exact Or.inl hr
    | vref b => simp [reprT] at hr
  | .trec fs, v, hr => by
    cases v with
    | vnull => simp [reprT] at hr
    | vprim n => simp [reprT] at hr
    | vref b =>
      by_cases hba : b = a
      · exact Or.inr ⟨.trec fs, Nat.le_refl _, hba ▸ hr⟩
      · cases hlook : h.lookup b with
        | none => rw [reprT_vref_none hlook] at hr; cases hr
        | some o =>
          rw [reprT_vref_iff hlook] at hr
          obtain ⟨h1, hb, _, h4, h5, h6, h7⟩ := hr
          rcases reprF_avoid_or_occurs a fs o.fields h7 with hok | ⟨t2, hsz, hocc⟩
          · refine Or.inl ?_
            rw [reprT_vref_iff hlook]
            exact ⟨h1, hb, by simpa using hba, h4, h5, h6, hok⟩
          · exact Or.inr ⟨t2, Nat.le_trans hsz (by simp [sizeT]), hocc⟩

theorem reprF_avoid_or_occurs {lo hi : Nat} {h : Heap} (a : Addr) :
    ∀ (fs : Fields) (l : List (String × HVal)), reprF [] lo hi h l fs = true →
      reprF [a] lo hi h l fs = true ∨
      ∃ t2, sizeT t2 ≤ sizeF fs ∧ reprT [] lo hi h (.vref a) t2 = true
  | .fnil, l, hr => by
    cases l with
    | nil => exact Or.inl rfl
    | cons p rest => simp at hr
  | .fcons k2 t fsr, l, hr => by
    cases l with
    | nil => simp at hr
    | cons p rest =>
      cases p with
      | mk k v =>
        rw [reprF_cons_iff] at hr
        rcases reprT_avoid_or_occurs a t v hr.2.1 with hokT | ⟨t2, hsz, hocc⟩
        · rcases reprF_avoid_or_occurs a fsr rest hr.2.2 with hokF | ⟨t2, hsz, hocc⟩
          · exact Or.inl (reprF_cons_iff.mpr ⟨hr.1, hokT, hokF⟩)
          · refine Or.inr ⟨t2, Nat.le_trans hsz ?_, hocc⟩
            simp only [sizeF]
            omega
        · refine Or.inr ⟨t2, Nat.le_trans hsz ?_, hocc⟩
          simp only [sizeF]
          omega

end

/- The fields of the object at `a` can always be represented while avoiding
`a` itself: otherwise a sub-derivation for `a` would, by functionality, have
to repeat the whole record strictly inside itself. -/

theorem reprF_avoid_self {lo hi : Nat} {h : Heap} {a : Addr} {o : HObj} {fs : Fields}
    (hlook : h.lookup a = some o) (hr : reprF [] lo hi h o.fields fs = true) :
    reprF [a] lo hi h o.fields fs = true := by
  rcases reprF_avoid_or_occurs a fs o.fields hr with hok | ⟨t2, hsz, hocc⟩
  · exact hok
  · cases t2 with
    | tnull => simp [reprT] at hocc
    | tprim m => simp [reprT] at hocc
    | trec fs2 =>
      rw [reprT_vref_iff hlook] at hocc
      have hfs : fs2 = fs := reprF_functional fs2 fs o.fields hocc.2.2.2.2.2.2 hr
      subst hfs
      simp [sizeT] at hsz

theorem hasMarker_eq_of_keys (l1 l2 : List (String × HVal)) (c1 c2 : Bool)
    (hkeys : l1.map Prod.fst = l2.map Prod.fst) :
    HObj.hasMarker ⟨l1, c1⟩ = HObj.hasMarker ⟨l2, c2⟩ := by
  have h1 : ∀ (l : List (String × HVal)),
      l.any (fun p => p.1 == "isActiveClone") =
      (l.map Prod.fst).any (fun k => k == "isActiveClone") := by
    intro l
    induction l with
    | nil => rfl
    | cons p ps ih => simp only [List.any_cons, List.map_cons, ih]
  simp only [HObj.hasMarker]
  rw [h1, h1, hkeys]

/- ## The main correctness run of `clone` on tree-represented values

`cloneT_ok`: with sufficient fuel, cloning a value that represents an acyclic
tree succeeds, leaves every pre-existing address untouched (in particular the
source, markers removed), and returns a value representing the same tree
entirely at fresh addresses.  `cloneFlds_ok` is the loop invariant of the key
loop (`cloneStep`): `a` is the source object, `t` the fresh result object,
`acc` the result fields built so far, `rem` the remaining source fields. -/

mutual

theorem cloneT_ok :
    ∀ (t : Tree) (f : Nat) (h : Heap) (v : HVal),
      needT t ≤ f → h.Valid → reprT [] 0 h.next h v t = true →
      ∃ h2 w, cloneF f h v = (h2, .ok w) ∧ h2.Valid ∧ h.next ≤ h2.next ∧
        (∀ b, b < h.next → h2.lookup b = h.lookup b) ∧
        reprT [] h.next h2.next h2 w t = true
  | .tnull, f, h, v, hf, hv, hr => by
    cases v with
    | vnull =>
      cases f with
      | zero => simp [needT] at hf
      | succ f2 => exact ⟨h, .vnull, rfl, hv, Nat.le_refl _, fun b _ => rfl, rfl⟩
    | vprim n => simp [reprT] at hr
    | vref a => simp [reprT] at hr
  | .tprim m, f, h, v, hf, hv, hr => by
    cases v with
    | vnull => simp [reprT] at hr
    | vprim n =>
      cases f with
      | zero => simp [needT] at hf
      | succ f2 =>
        refine ⟨h, .vprim n, rfl, hv, Nat.le_refl _, fun b _ => rfl, ?_⟩
        rw [reprT_vprim_tprim] at hr ⊢
        exact hr
    | vref a => simp [reprT] at hr
  | .trec fs, f, h, v, hf, hv, hr => by
    cases v with
    | vnull => simp [reprT] at hr
    | vprim n => simp [reprT] at hr
    | vref a =>
      cases f with
      | zero => simp [needT] at hf
      | succ f2 =>
        cases hlook : h.lookup a with
        | none => rw [reprT_vref_none hlook] at hr; cases hr
        | some o =>
          rw [reprT_vref_iff hlook] at hr
          obtain ⟨-, ha, -, hctor, hnm, hnd, hflds⟩ := hr
          have hfuel : needF fs ≤ f2 := by
            have : needT (.trec fs) = needF fs + 1 := rfl
            omega
          have hane : a ≠ h.next := Nat.ne_of_lt ha
          -- the freshly allocated result object
          have hv1 : ((h.alloc ⟨[], true⟩).1).Valid := Heap.valid_alloc hv
          have hlook1a : ((h.alloc ⟨[], true⟩).1).lookup a = some o := by
            rw [Heap.lookup_alloc_ne hane, hlook]
          have hlook1t : ((h.alloc ⟨[], true⟩).1).lookup h.next = some ⟨[], true⟩ :=
            Heap.lookup_alloc_self hv
          -- the remaining-fields invariant at loop entry
          have hfldsAv : reprF [a] 0 h.next h o.fields fs = true :=
            reprF_avoid_self hlook hflds
          have hflds1 : reprF [a] 0 h.next ((h.alloc ⟨[], true⟩).1) o.fields fs = true := by
            refine reprF_mono_heap ?_ fs o.fields hfldsAv
            intro b _ _ hbhi
            exact Heap.lookup_alloc_ne (Nat.ne_of_lt hbhi)
          obtain ⟨h2, newPairs, hstep, hv2, hnext2, hframe2, hlookA2, hlookT2, hkeys2, hrepr2⟩ :=
            cloneFlds_ok fs f2 ((h.alloc ⟨[], true⟩).1) a h.next o [] o.fields h.next
              hfuel hv1 hlook1a hnm
              (fun k v2 hkv => getS_some_of_nodup hnd hkv) hnd hflds1 hlook1t
              (fun p _ => rfl) hane (Nat.lt_succ_of_lt ha) (Nat.lt_succ_self _) (Nat.le_succ _)
          refine ⟨h2, .vref h.next, ?_, hv2, Nat.le_trans (Nat.le_succ _) hnext2, ?_, ?_⟩
          · show cloneF (f2 + 1) h (.vref a) = (h2, Except.ok (.vref h.next))
            simp [cloneF, hlook, hnm, hctor, hstep]
          · intro b hb
            have hbt : b ≠ h.next := Nat.ne_of_lt hb
            by_cases hba : b = a
            · subst hba
              rw [hlookA2, hlook]
            · rw [hframe2 b (Nat.lt_succ_of_lt hb) hba hbt]
              exact Heap.lookup_alloc_ne hbt
          · have hlookT2' : h2.lookup h.next = some ⟨newPairs, true⟩ := by
              simpa using hlookT2
            rw [reprT_vref_iff hlookT2']
            refine ⟨Nat.le_refl _, Nat.lt_of_lt_of_le (Nat.lt_succ_self _) hnext2,
              List.not_mem_nil _, rfl, ?_, ?_, hrepr2⟩
            · rw [hasMarker_eq_of_keys newPairs o.fields true o.ctorOk hkeys2]
              exact hnm
            · rw [hkeys2]
              exact hnd

theorem cloneFlds_ok :
    ∀ (fs : Fields) (f : Nat) (h : Heap) (a t : Addr) (oCur : HObj)
      (acc rem : List (String × HVal)) (n0 : Nat),
      needF fs ≤ f → h.Valid →
      h.lookup a = some oCur → oCur.hasMarker = false →
      (∀ k v, (k, v) ∈ rem → getS oCur.fields k = some v) →
      (rem.map Prod.fst).Nodup →
      reprF [a] 0 t h rem fs = true →
      h.lookup t = some ⟨acc, true⟩ →
      (∀ p ∈ rem, getS acc p.1 = none) →
      a ≠ t → a < h.next → t < h.next → n0 ≤ h.next →
      ∃ h2 newPairs,
        cloneStep (cloneF f) h a t (rem.map Prod.fst) = (h2, .ok ()) ∧
        h2.Valid ∧ h.next ≤ h2.next ∧
        (∀ b, b < h.next → b ≠ a → b ≠ t → h2.lookup b = h.lookup b) ∧
        h2.lookup a = some oCur ∧
        h2.lookup t = some ⟨acc ++ newPairs, true⟩ ∧
        newPairs.map Prod.fst = rem.map Prod.fst ∧
        reprF [] n0 h2.next h2 newPairs fs = true
  | .fnil, f, h, a, t, oCur, acc, rem, n0, hf, hv, hlookA, hm, hremOk, hndrem, hrepr,
      hlookT, haccNone, hat, hah, hth, hn0 => by
    cases rem with
    | cons p rest => cases p; simp at hrepr
    | nil =>
      refine ⟨h, [], rfl, hv, Nat.le_refl _, fun b _ _ _ => rfl, hlookA, ?_, rfl, rfl⟩
      rw [List.append_nil]
      exact hlookT
  | .fcons k2 tt fsr, f, h, a, t, oCur, acc, rem, n0, hf, hv, hlookA, hm, hremOk, hndrem,
      hrepr, hlookT, haccNone, hat, hah, hth, hn0 => by
    cases rem with
    | nil => simp at hrepr
    | cons p rest =>
      cases p with
      | mk k v =>
        rw [reprF_cons_iff] at hrepr
        obtain ⟨hkk2, hT, hF⟩ := hrepr
        have hta : t ≠ a := Ne.symm hat
        have hgetk : getS oCur.fields k = some v :=
          hremOk k v (List.mem_cons_self _ _)
        have hndrest : (rest.map Prod.fst).Nodup := by
          rw [List.map_cons, List.nodup_cons] at hndrem
          exact hndrem.2
        have hknotin : k ∉ rest.map Prod.fst := by
          rw [List.map_cons, List.nodup_cons] at hndrem
          exact hndrem.1
        have hfuelT : needT tt ≤ f := by
          have heq : needF (.fcons k2 tt fsr) = max (needT tt) (needF fsr) := rfl
          rw [heq] at hf
          omega
        have hfuelF : needF fsr ≤ f := by
          have heq : needF (.fcons k2 tt fsr) = max (needT tt) (needF fsr) := rfl
          rw [heq] at hf
          omega
        -- step 1: mark the source
        have hlook1a : (h.update a (oCur.setField "isActiveClone" .vnull)).lookup a =
            some (oCur.setField "isActiveClone" .vnull) := Heap.lookup_update_self hlookA
        have hv1 : (h.update a (oCur.setField "isActiveClone" .vnull)).Valid :=
          Heap.valid_update hv
        have hnext1 : (h.update a (oCur.setField "isActiveClone" .vnull)).next = h.next := rfl
        -- step 2: recursively clone the field value
        have hT1 : reprT [] 0 (h.update a (oCur.setField "isActiveClone" .vnull)).next
            (h.update a (oCur.setField "isActiveClone" .vnull)) v tt = true := by
          have hTa : reprT [a] 0 t (h.update a (oCur.setField "isActiveClone" .vnull)) v tt
              = true := by
            refine reprT_mono_heap ?_ tt v hT
            intro b hbav _ _
            refine Heap.lookup_update_ne ?_
            intro hba
            exact hbav (hba ▸ List.mem_cons_self _ _)
          refine reprT_mono_bounds (Nat.le_refl _) ?_ ?_ tt v hTa
          · rw [hnext1]
            exact Nat.le_of_lt hth
          · intro b _
            exact List.not_mem_nil b
        obtain ⟨h2, w, hrun, hv2, hnext12, hframe12, hreprW⟩ :=
          cloneT_ok tt f (h.update a (oCur.setField "isActiveClone" .vnull)) v hfuelT hv1 hT1
        rw [hnext1] at hnext12
        -- step 3: write the cloned value into the result object
        have hlookT2 : h2.lookup t = some ⟨acc, true⟩ := by
          rw [hframe12 t (by rw [hnext1]; exact hth), Heap.lookup_update_ne hta]
          exact hlookT
        have hgacc : getS acc k = none := haccNone (k, v) (List.mem_cons_self _ _)
        have hsetT : (⟨acc, true⟩ : HObj).setField k w = ⟨acc ++ [(k, w)], true⟩ := by
          simp only [HObj.setField]
          rw [setS_absent hgacc]
        -- step 4: remove the marker from the source
        have hlookA3 : (h2.update t ⟨acc ++ [(k, w)], true⟩).lookup a =
            some (oCur.setField "isActiveClone" .vnull) := by
          rw [Heap.lookup_update_ne hat, hframe12 a (by rw [hnext1]; exact hah)]
          exact hlook1a
        have hdel : (oCur.setField "isActiveClone" .vnull).delMarker = oCur :=
          delMarker_setMarker hm
        have hv4 : ((h2.update t ⟨acc ++ [(k, w)], true⟩).update a oCur).Valid :=
          Heap.valid_update (Heap.valid_update hv2)
        have hlookA4 : ((h2.update t ⟨acc ++ [(k, w)], true⟩).update a oCur).lookup a =
            some oCur := Heap.lookup_update_self hlookA3
        have hlookT4 : ((h2.update t ⟨acc ++ [(k, w)], true⟩).update a oCur).lookup t =
            some ⟨acc ++ [(k, w)], true⟩ := by
          rw [Heap.lookup_update_ne hta]
          exact Heap.lookup_update_self hlookT2
        have hnext4 : ((h2.update t ⟨acc ++ [(k, w)], true⟩).update a oCur).next = h2.next := rfl
        -- the loop invariant for the remaining keys, in the updated heap
        have hF4 : reprF [a] 0 t ((h2.update t ⟨acc ++ [(k, w)], true⟩).update a oCur)
            rest fsr = true := by
          refine reprF_mono_heap ?_ fsr rest hF
          intro b hbav _ hbt
          have hba : b ≠ a := fun hba => hbav (hba ▸ List.mem_cons_self _ _)
          have hbtn : b ≠ t := Nat.ne_of_lt hbt
          rw [Heap.lookup_update_ne hba, Heap.lookup_update_ne hbtn,
            hframe12 b (by rw [hnext1]; exact Nat.lt_trans hbt hth),
            Heap.lookup_update_ne hba]
        have haccNone4 : ∀ p ∈ rest, getS (acc ++ [(k, w)]) p.1 = none := by
          intro p hp
          rw [getS_append_none (haccNone p (List.mem_cons_of_mem _ hp))]
          have hpk : k ≠ p.1 := by
            intro hkp
            exact hknotin (hkp ▸ List.mem_map_of_mem Prod.fst hp)
          simp [getS, hpk]
        obtain ⟨h5, newRest, hstep5, hv5, hnext45, hframe45, hlookA5, hlookT5, hkeys5, hrepr5⟩ :=
          cloneFlds_ok fsr f ((h2.update t ⟨acc ++ [(k, w)], true⟩).update a oCur) a t oCur
            (acc ++ [(k, w)]) rest n0 hfuelF hv4 hlookA4 hm
            (fun k3 v3 hkv => hremOk k3 v3 (List.mem_cons_of_mem _ hkv)) hndrest hF4 hlookT4
            haccNone4 hat
            (by rw [hnext4]; exact Nat.lt_of_lt_of_le (hnext1 ▸ hah) hnext12)
            (by rw [hnext4]; exact Nat.lt_of_lt_of_le (hnext1 ▸ hth) hnext12)
            (by rw [hnext4]; exact Nat.le_trans (hnext1 ▸ hn0) hnext12)
        rw [hnext4] at hnext45 hframe45
        refine ⟨h5, (k, w) :: newRest, ?_, hv5, ?_, ?_, hlookA5, ?_, ?_, ?_⟩
        · -- unfold one iteration of the key loop
          show cloneStep (cloneF f) h a t (k :: rest.map Prod.fst) = (h5, .ok ())
          simp only [cloneStep, hlookA, hlook1a]
          rw [getField_setMarker hm hgetk, hrun]
          simp only [hlookT2, hsetT, hlookA3, hdel]
          exact hstep5
        · exact Nat.le_trans hnext12 hnext45
        · intro b hb hba hbt
          rw [hframe45 b (Nat.lt_of_lt_of_le hb hnext12) hba hbt,
            Heap.lookup_update_ne hba, Heap.lookup_update_ne hbt,
            hframe12 b (by rw [hnext1]; exact hb), Heap.lookup_update_ne hba]
        · rw [hlookT5, List.append_assoc]
          rfl
        · rw [List.map_cons, hkeys5, List.map_cons]
        · rw [reprF_cons_iff]
          refine ⟨hkk2, ?_, hrepr5⟩
          have hout : reprT [] h.next h2.next h5 w tt = true := by
            refine reprT_mono_heap ?_ tt w (by rw [hnext1] at hreprW; exact hreprW)
            intro b _ hblo hbhi
            have hba : b ≠ a := Nat.ne_of_gt (Nat.lt_of_lt_of_le hah hblo)
            have hbt : b ≠ t := Nat.ne_of_gt (Nat.lt_of_lt_of_le hth hblo)
            rw [hframe45 b hbhi hba hbt, Heap.lookup_update_ne hba,
              Heap.lookup_update_ne hbt]
          refine reprT_mono_bounds ?_ ?_ (fun b hb => hb) tt w hout
          · exact Nat.le_trans hn0 (Nat.le_refl _)
          · exact hnext45

end

/- ## The success frame: a normally-returning clone restores every
pre-existing object, on arbitrary heaps (cyclic ones included) -/

theorem cloneStep_frame (recur : Heap → HVal → Heap × Except CloneErr HVal)
    (hrec : ∀ h v h2 w, recur h v = (h2, .ok w) → h.Valid →
      h2.Valid ∧ h.next ≤ h2.next ∧ ∀ b, b < h.next → h2.lookup b = h.lookup b) :
    ∀ (ks : List String) (h : Heap) (a t : Addr) (oCur oT : HObj) (h2 : Heap),
      cloneStep recur h a t ks = (h2, .ok ()) → h.Valid →
      h.lookup a = some oCur → oCur.hasMarker = false →
      h.lookup t = some oT → a ≠ t →
      h2.Valid ∧ h.next ≤ h2.next ∧
        (∀ b, b < h.next → b ≠ t → h2.lookup b = h.lookup b) := by
  intro ks
  induction ks with
  | nil =>
    intro h a t oCur oT h2 heq hv hlookA hm hlookT hat
    simp only [cloneStep] at heq
    obtain ⟨rfl, -⟩ := Prod.mk.injEq .. ▸ And.intro (congrArg Prod.fst heq) (congrArg Prod.snd heq)
    exact ⟨hv, Nat.le_refl _, fun b _ _ => rfl⟩
  | cons k ks ih =>
    intro h a t oCur oT h2 heq hv hlookA hm hlookT hat
    have hta : t ≠ a := Ne.symm hat
    have hah : a < h.next := Heap.lookup_lt_next hv hlookA
    have hth : t < h.next := Heap.lookup_lt_next hv hlookT
    have hlook1a : (h.update a (oCur.setField "isActiveClone" .vnull)).lookup a =
        some (oCur.setField "isActiveClone" .vnull) := Heap.lookup_update_self hlookA
    have hv1 : (h.update a (oCur.setField "isActiveClone" .vnull)).Valid :=
      Heap.valid_update hv
    simp only [cloneStep, hlookA, hlook1a] at heq
    rcases hrun : recur (h.update a (oCur.setField "isActiveClone" .vnull))
        ((oCur.setField "isActiveClone" .vnull).getField k) with ⟨h3, r⟩
    rw [hrun] at heq
    cases r with
    | error e => simp at heq
    | ok w =>
      obtain ⟨hv3, hnext13, hframe13⟩ := hrec _ _ _ _ hrun hv1
      have hlook3t : h3.lookup t = some oT := by
        rw [hframe13 t hth, Heap.lookup_update_ne hta]
        exact hlookT
      have hlook3a : h3.lookup a = some (oCur.setField "isActiveClone" .vnull) := by
        rw [hframe13 a hah]
        exact hlook1a
      have hlook4a : (h3.update t (oT.setField k w)).lookup a =
          some (oCur.setField "isActiveClone" .vnull) := by
        rw [Heap.lookup_update_ne hat]
        exact hlook3a
      simp only [hlook3t, hlook4a, delMarker_setMarker hm] at heq
      have hv4 : ((h3.update t (oT.setField k w)).update a oCur).Valid :=
        Heap.valid_update (Heap.valid_update hv3)
      have hlook4a2 : ((h3.update t (oT.setField k w)).update a oCur).lookup a =
          some oCur := Heap.lookup_update_self hlook4a
      have hlook4t : ((h3.update t (oT.setField k w)).update a oCur).lookup t =
          some (oT.setField k w) := by
        rw [Heap.lookup_update_ne hta]
        exact Heap.lookup_update_self hlook3t
      obtain ⟨hv2, hnext42, hframe42⟩ :=
        ih ((h3.update t (oT.setField k w)).update a oCur) a t oCur (oT.setField k w) h2
          heq hv4 hlook4a2 hm hlook4t hat
      refine ⟨hv2, ?_, ?_⟩
      · exact Nat.le_trans hnext13 hnext42
      · intro b hb hbt
        by_cases hba : b = a
        · rw [hba, hframe42 a (Nat.lt_of_lt_of_le hah hnext13) hat, hlook4a2, hlookA]
        · rw [hframe42 b (Nat.lt_of_lt_of_le hb hnext13) hbt,
            Heap.lookup_update_ne hba, Heap.lookup_update_ne hbt,
            hframe13 b hb, Heap.lookup_update_ne hba]

theorem cloneF_frame :
    ∀ (f : Nat) (h : Heap) (v : HVal) (h2 : Heap) (w : HVal),
      cloneF f h v = (h2, .ok w) → h.Valid →
      h2.Valid ∧ h.next ≤ h2.next ∧ ∀ b, b < h.next → h2.lookup b = h.lookup b := by
  intro f
  induction f with
  | zero =>
    intro h v h2 w heq
    simp [cloneF] at heq
  | succ f2 ih =>
    intro h v h2 w heq hv
    cases v with
    | vnull =>
      simp only [cloneF] at heq
      obtain ⟨rfl, -⟩ := Prod.mk.injEq .. ▸ And.intro (congrArg Prod.fst heq) (congrArg Prod.snd heq)
      exact ⟨hv, Nat.le_refl _, fun b _ => rfl⟩
    | vprim n =>
      simp only [cloneF] at heq
      obtain ⟨rfl, -⟩ := Prod.mk.injEq .. ▸ And.intro (congrArg Prod.fst heq) (congrArg Prod.snd heq)
      exact ⟨hv, Nat.le_refl _, fun b _ => rfl⟩
    | vref a =>
      cases hlook : h.lookup a with
      | none => simp [cloneF, hlook] at heq
      | some o =>
        by_cases hmk : o.hasMarker = true
        · simp only [cloneF, hlook, hmk, if_true] at heq
          obtain ⟨rfl, -⟩ :=
            Prod.mk.injEq .. ▸ And.intro (congrArg Prod.fst heq) (congrArg Prod.snd heq)
          exact ⟨hv, Nat.le_refl _, fun b _ => rfl⟩
        · have hnm : o.hasMarker = false := by
            cases hh : o.hasMarker
            · rfl
            · exact absurd hh hmk
          by_cases hct : o.ctorOk = true
          · have hane : a ≠ h.next := Nat.ne_of_lt (Heap.lookup_lt_next hv hlook)
            rcases hstep : cloneStep (cloneF f2) (h.alloc ⟨[], true⟩).1 a h.next
                (o.fields.map Prod.fst) with ⟨h3, r⟩
            rw [show cloneF (f2 + 1) h (.vref a) = match cloneStep (cloneF f2)
                (h.alloc ⟨[], true⟩).1 a h.next (o.fields.map Prod.fst) with
                | (h4, .ok ()) => (h4, .ok (.vref h.next))
                | (h4, .error e) => (h4, .error e)
              from by simp [cloneF, hlook, hnm, hct], hstep] at heq
            cases r with
            | error e => simp at heq
            | ok u =>
              simp only at heq
              obtain ⟨rfl, -⟩ :=
                Prod.mk.injEq .. ▸ And.intro (congrArg Prod.fst heq) (congrArg Prod.snd heq)
              have hlook1a : ((h.alloc ⟨[], true⟩).1).lookup a = some o := by
                rw [Heap.lookup_alloc_ne hane]
                exact hlook
              have hlook1t : ((h.alloc ⟨[], true⟩).1).lookup h.next = some ⟨[], true⟩ :=
                Heap.lookup_alloc_self hv
              obtain ⟨hv3, hnext3, hframe3⟩ :=
                cloneStep_frame (cloneF f2) ih (o.fields.map Prod.fst)
                  (h.alloc ⟨[], true⟩).1 a h.next o ⟨[], true⟩ h2 hstep
                  (Heap.valid_alloc hv) hlook1a hnm hlook1t hane
              refine ⟨hv3, Nat.le_trans (Nat.le_succ _) hnext3, ?_⟩
              intro b hb
              have hbt : b ≠ h.next := Nat.ne_of_lt hb
              rw [hframe3 b (Nat.lt_succ_of_lt hb) hbt]
              exact Heap.lookup_alloc_ne hbt
          · have hcf : o.ctorOk = false := by
              cases hh : o.ctorOk
              · rfl
              · exact absurd hh hct
            simp [cloneF, hlook, hnm, hcf] at heq

/- ## Claim theorems -/

/-- C1: contrary to the claim, capability-snapshot construction is not total.
The claim's sub-statement about `initWebGl` holds — given the null surface with
support flag false it returns null without raising — but when `canvasSupported`
is false the snapshot computation then crashes: line 306 reads
`getExtension` of the null `_testingWebGl`, a TypeError at module load, instead
of recording `drawBuffersSupported = false`.  This theorem evaluates the module
initialization at the failing environment (no `document`). -/
theorem c1_snapshot_init_crashes_when_canvas_unsupported :
    (initWebGl (.rBool false) .anull).1 = .ok none ∧
    moduleInit ⟨false, ⟨none, none, 0, 0⟩⟩ = .error .typeError := by decide

/-- C2: contrary to the claim, `initWebGl` does not return null when neither
context identifier resolves.  On a valid canvas whose `getContext` yields null
for both identifiers, the code does attempt the legacy `experimental-webgl`
identifier first and `webgl` second, both with the default options — the trace
below — but then line 200 dereferences the null context and a TypeError is
raised, contradicting the function's own `else null` documentation. -/
theorem c2_fallback_order_then_crash_on_double_null :
    initWebGl (.rBool true) (.aobj ⟨some "canvas", some ⟨none, none⟩, 300, 150⟩) =
      (.error .typeError,
       [("experimental-webgl", initWebGlDefaultOptions),
        ("webgl", initWebGlDefaultOptions)]) := by decide

/-- C3 counterexample: the claim says `initWebGl` raises an invalid-surface
error for EVERY argument that `isCanvas` rejects.  But when the memoized
support flag is false, the guard at line 182 returns null for every argument:
here the rejected plain object (no `nodeName`, no `getContext`) produces
`.ok none`, not an error. -/
theorem c3_unsupported_returns_null_cex :
    isCanvas (.aobj ⟨none, none, 300, 150⟩) = .ok .rUndefined ∧
    JRes.truthy .rUndefined = false ∧
    (initWebGl (.rBool false) (.aobj ⟨none, none, 300, 150⟩)).1 = .ok none := by decide

/-- C3 (amended): when the memoized canvas-support value is truthy, `initWebGl`
raises the invalid-canvas error for every argument whose `isCanvas` chain value
is falsy (this covers null, `{}` and `"not a surface"`); when the memoized
value is the boolean false — support probed and not detected, the value the
module memoizes both in a host without `document` and when the probe canvas
fails `isCanvas` — `initWebGl` returns null for every argument, without
raising and without any `getContext` call. -/
theorem c3_invalid_surface_raises_when_supported (flag : JRes) (arg arg2 : CanvasArg)
    (r : JRes) (hflag : flag.truthy = true) (hres : isCanvas arg = .ok r)
    (hr : r.truthy = false) :
    (initWebGl flag arg).1 = .error .invalidCanvas ∧
    initWebGl (.rBool false) arg2 = (.ok none, []) := by
  constructor
  · have hcond : ¬ ((flag ≠ .rUndefined ∨ arg = .anull) ∧ flag.truthy = false) := by
      intro hc
      rw [hflag] at hc
      exact absurd hc.2 (by decide)
    simp [initWebGl, hcond, hres, hr]
  · simp [initWebGl, JRes.truthy]

/-- C3 witness: the amended theorem at the concrete rejected argument null with
support detected, and at a rejected plain object with support absent. -/
theorem c3_invalid_surface_witness :
    JRes.truthy (.rBool true) = true ∧ isCanvas .anull = .ok (.rBool false) ∧
    JRes.truthy (.rBool false) = false ∧
    ((initWebGl (.rBool true) .anull).1 = .error .invalidCanvas ∧
     initWebGl (.rBool false) (.aobj ⟨some "DIV", none, 0, 0⟩) = (.ok none, [])) :=
  ⟨by decide, by decide, by decide,
    c3_invalid_surface_raises_when_supported (.rBool true) .anull
      (.aobj ⟨some "DIV", none, 0, 0⟩) (.rBool false)
      (by decide) (by decide) (by decide)⟩

/-- C4 counterexample: the claim says the marker is absent on EVERY exit path,
including a throw from deeper in the recursion.  The loop body has no
try/finally: when the recursive clone of the field value throws (here object 1,
whose constructor is not invocable), the `delete` at line 235 is skipped and
the source object 0 is left with the `isActiveClone` property attached. -/
theorem c4_marker_left_on_throw_cex :
    cloneF 5 ⟨[(0, ⟨[("x", .vref 1)], true⟩), (1, ⟨[], false⟩)], 2⟩ (.vref 0) =
      (⟨[(0, ⟨[("x", .vref 1), ("isActiveClone", .vnull)], true⟩),
         (1, ⟨[], false⟩), (2, ⟨[], true⟩)], 3⟩,
       .error .ctorThrow) := by decide

/-- C4 (amended): on every NORMALLY RETURNING exit of `clone`, the marker is
absent from the source: a successful call restores every pre-existing object
exactly, so a marker-free source is returned marker-free (on arbitrary object
graphs, cyclic ones included).  When a deeper recursive call throws, the marker
for the key in flight can remain (see the counterexample). -/
theorem c4_marker_absent_on_normal_return (f : Nat) (h h2 : Heap) (a : Addr) (o : HObj)
    (w : HVal) (hv : h.Valid) (hlook : h.lookup a = some o) (hm : o.hasMarker = false)
    (hrun : cloneF f h (.vref a) = (h2, .ok w)) :
    h2.lookup a = some o ∧ o.hasMarker = false := by
  obtain ⟨-, -, hframe⟩ := cloneF_frame f h (.vref a) h2 w hrun hv
  refine ⟨?_, hm⟩
  rw [hframe a (Heap.lookup_lt_next hv hlook)]
  exact hlook

/-- C4 witness: the amended theorem run on a concrete one-field object. -/
theorem c4_marker_absent_witness :
    (⟨[(0, ⟨[("x", .vprim 5)], true⟩)], 1⟩ : Heap).Valid ∧
    (⟨[(0, ⟨[("x", .vprim 5)], true⟩)], 1⟩ : Heap).lookup 0 =
      some ⟨[("x", .vprim 5)], true⟩ ∧
    (⟨[("x", .vprim 5)], true⟩ : HObj).hasMarker = false ∧
    cloneF 2 ⟨[(0, ⟨[("x", .vprim 5)], true⟩)], 1⟩ (.vref 0) =
      (⟨[(0, ⟨[("x", .vprim 5)], true⟩), (1, ⟨[("x", .vprim 5)], true⟩)], 2⟩,
       .ok (.vref 1)) ∧
    ((⟨[(0, ⟨[("x", .vprim 5)], true⟩), (1, ⟨[("x", .vprim 5)], true⟩)], 2⟩ : Heap).lookup 0 =
      some ⟨[("x", .vprim 5)], true⟩ ∧
     (⟨[("x", .vprim 5)], true⟩ : HObj).hasMarker = false) :=
  ⟨by decide, by decide, by decide, by decide,
    c4_marker_absent_on_normal_return 2 ⟨[(0, ⟨[("x", .vprim 5)], true⟩)], 1⟩
      ⟨[(0, ⟨[("x", .vprim 5)], true⟩), (1, ⟨[("x", .vprim 5)], true⟩)], 2⟩ 0
      ⟨[("x", .vprim 5)], true⟩ (.vref 1) (by decide) (by decide) (by decide)
      (by decide)⟩

/-- C5 counterexample: for `a = \x7b\x7d; a.self = a`, the claim states
`clone(a).self === clone(a)`.  In fact the cycle-breaking rule returns the
ORIGINAL object: the clone lives at the fresh address 1, and its `self` field
refers back to address 0, the input — not to the clone itself. -/
theorem c5_self_field_is_original_not_clone_cex :
    (cloneF 3 ⟨[(0, ⟨[("self", .vref 0)], true⟩)], 1⟩ (.vref 0)).2 = .ok (.vref 1) ∧
    ((cloneF 3 ⟨[(0, ⟨[("self", .vref 0)], true⟩)], 1⟩ (.vref 0)).1.lookup 1).map
      (fun o => o.getField "self") = some (.vref 0) ∧
    HVal.vref 0 ≠ HVal.vref 1 := by decide

/-- C5 (amended): on the directly self-referential object, `clone` terminates,
the source carries no residual marker afterwards (object 0 is returned exactly
as it was), and the result's `self` field is reference-identical to the
ORIGINAL input object, not to the result. -/
theorem c5_cycle_clone_full_run :
    cloneF 3 ⟨[(0, ⟨[("self", .vref 0)], true⟩)], 1⟩ (.vref 0) =
      (⟨[(0, ⟨[("self", .vref 0)], true⟩), (1, ⟨[("self", .vref 0)], true⟩)], 2⟩,
       .ok (.vref 1)) := by decide

/-- C6 counterexample: the claim says every marker not STRICTLY equal to
boolean true is rejected, naming the marker value 1 as rejected.  Line 287 uses
loose `!=`, and `1 == true` holds in JS, so a descriptor with marker 1 is
accepted and returned. -/
theorem c6_numeric_marker_accepted_cex :
    validateKernelObj (fun _ => .error ()) (.kval (.kobj [("isKernelObj", .mNum 1)])) =
      .ok (.kobj [("isKernelObj", .mNum 1)]) := by decide

/-- C6 (amended): the marker check is loose equality with true (i.e. with the
number 1): a structured descriptor object is rejected with the missing-marker
error exactly when its marker field is not loosely equal to true.  Boolean
true, the number 1, and every string whose `StringToNumber` value is exactly 1
— including the fractional, exponent and hex forms "1.0", "1e0", "10e-1" and
"0x1" — are accepted; the string "true" (NaN), the empty string (0),
"Infinity", other numbers, false, null and an absent marker are rejected. -/
theorem c6_marker_check_is_loose_equality (parse : String → Except Unit KVal)
    (fields : List (String × MVal)) :
    (validateKernelObj parse (.kval (.kobj fields)) =
      if looseEqTrue (KVal.markerVal (.kobj fields)) = true then .ok (.kobj fields)
      else .error .missingMarker) ∧
    looseEqTrue (.mBool true) = true ∧
    looseEqTrue (.mNum 1) = true ∧
    looseEqTrue (.mStr "1") = true ∧
    looseEqTrue (.mStr " 1 ") = true ∧
    looseEqTrue (.mStr "1.0") = true ∧
    looseEqTrue (.mStr "1e0") = true ∧
    looseEqTrue (.mStr "10e-1") = true ∧
    looseEqTrue (.mStr "0x1") = true ∧
    looseEqTrue (.mStr "true") = false ∧
    looseEqTrue (.mStr "") = false ∧
    looseEqTrue (.mStr "Infinity") = false ∧
    looseEqTrue (.mNum 0) = false ∧
    looseEqTrue (.mBool false) = false ∧
    looseEqTrue .mNull = false ∧
    looseEqTrue .mUndefined = false := by
  exact ⟨rfl, by decide, by decide, by decide, by decide, by decide, by decide, by decide,
    by decide, by decide, by decide, by decide, by decide, by decide, by decide, by decide⟩

/-- C7 counterexample: the claim quantifies over EVERY acyclic composite value
of primitives and plain records.  A record carrying a field named
`isActiveClone` is such a value, yet `clone` returns it by reference (the
result is the input address itself, sharing every nested record reference
rather than none). -/
theorem c7_marker_named_field_shared_cex :
    cloneF 5 ⟨[(0, ⟨[("isActiveClone", .vnull)], true⟩)], 1⟩ (.vref 0) =
      (⟨[(0, ⟨[("isActiveClone", .vnull)], true⟩)], 1⟩, .ok (.vref 0)) := by decide

/-- C7 (amended): for every acyclic composite value made of primitives, null
and nested plain records NONE OF WHICH carries a field named `isActiveClone`
(value `v` representing tree `t` in a well-formed heap), `clone` with
sufficient fuel succeeds; the input is preserved (every pre-existing address
unchanged, and `v` still represents `t`); the result is deep-equal to the
input (it represents the same tree `t`); and it shares no record reference
with the input: every input address sits below `h.next` while every result
address sits at or above it.  Null and primitives are passed through
unchanged. -/
theorem c7_clone_roundtrip (t : Tree) (f : Nat) (h : Heap) (v : HVal)
    (hf : needT t ≤ f) (hv : h.Valid) (hr : reprT [] 0 h.next h v t = true) :
    (∃ h2 w, cloneF f h v = (h2, .ok w) ∧
      (∀ b, b < h.next → h2.lookup b = h.lookup b) ∧
      reprT [] 0 h.next h2 v t = true ∧
      reprT [] h.next h2.next h2 w t = true) ∧
    (∀ (h3 : Heap) (n f2 : Nat),
      cloneF (f2 + 1) h3 .vnull = (h3, .ok .vnull) ∧
      cloneF (f2 + 1) h3 (.vprim n) = (h3, .ok (.vprim n))) := by
  obtain ⟨h2, w, hrun, hv2, hnext, hframe, hout⟩ := cloneT_ok t f h v hf hv hr
  refine ⟨⟨h2, w, hrun, hframe, ?_, hout⟩, fun h3 n f2 => ⟨rfl, rfl⟩⟩
  refine reprT_mono_heap ?_ t v hr
  intro b _ _ hbhi
  exact hframe b hbhi

/-- C7 witness: the round-trip theorem run on a concrete two-level record. -/
theorem c7_clone_roundtrip_witness :
    needT (.trec (.fcons "a" (.tprim 1) (.fcons "b" (.trec (.fcons "c" .tnull .fnil))
      .fnil))) ≤ 3 ∧
    (⟨[(0, ⟨[("a", .vprim 1), ("b", .vref 1)], true⟩),
       (1, ⟨[("c", .vnull)], true⟩)], 2⟩ : Heap).Valid ∧
    reprT [] 0 2 ⟨[(0, ⟨[("a", .vprim 1), ("b", .vref 1)], true⟩),
       (1, ⟨[("c", .vnull)], true⟩)], 2⟩ (.vref 0)
      (.trec (.fcons "a" (.tprim 1) (.fcons "b" (.trec (.fcons "c" .tnull .fnil))
        .fnil))) = true ∧
    ((∃ h2 w, cloneF 3 ⟨[(0, ⟨[("a", .vprim 1), ("b", .vref 1)], true⟩),
        (1, ⟨[("c", .vnull)], true⟩)], 2⟩ (.vref 0) = (h2, .ok w) ∧
      (∀ b, b < (⟨[(0, ⟨[("a", .vprim 1), ("b", .vref 1)], true⟩),
        (1, ⟨[("c", .vnull)], true⟩)], 2⟩ : Heap).next →
        h2.lookup b = (⟨[(0, ⟨[("a", .vprim 1), ("b", .vref 1)], true⟩),
          (1, ⟨[("c", .vnull)], true⟩)], 2⟩ : Heap).lookup b) ∧
      reprT [] 0 2 h2 (.vref 0) (.trec (.fcons "a" (.tprim 1)
        (.fcons "b" (.trec (.fcons "c" .tnull .fnil)) .fnil))) = true ∧
      reprT [] 2 h2.next h2 w (.trec (.fcons "a" (.tprim 1)
        (.fcons "b" (.trec (.fcons "c" .tnull .fnil)) .fnil))) = true) ∧
    (∀ (h3 : Heap) (n f2 : Nat),
      cloneF (f2 + 1) h3 .vnull = (h3, .ok .vnull) ∧
      cloneF (f2 + 1) h3 (.vprim n) = (h3, .ok (.vprim n)))) :=
  ⟨by decide, by decide, by decide,
    c7_clone_roundtrip _ 3 _ (.vref 0) (by decide) (by decide) (by decide)⟩

/-- C8: the validator's paths behave as claimed: null input fails with the
null-descriptor error (line 268); a string whose decode throws fails with the
malformed error (line 277); a string decoding to null fails with the
null-string flavour of the null-descriptor error (line 282); a valid
structured descriptor is returned unchanged; a valid textual descriptor
returns the decoded object. -/
theorem c8_validate_paths (parse : String → Except Unit KVal)
    (s1 s2 s3 : String) (v3 : KVal) (fields : List (String × MVal))
    (h1 : parse s1 = .error ())
    (h2 : parse s2 = .ok .knull)
    (h3 : parse s3 = .ok v3) (hv3 : looseEqTrue v3.markerVal = true)
    (hm : looseEqTrue (KVal.markerVal (.kobj fields)) = true) :
    validateKernelObj parse (.kval .knull) = .error .nullDescriptor ∧
    validateKernelObj parse (.kval (.kstr s1)) = .error .malformed ∧
    validateKernelObj parse (.kval (.kstr s2)) = .error .nullString ∧
    validateKernelObj parse (.kval (.kstr s3)) = .ok v3 ∧
    validateKernelObj parse (.kval (.kobj fields)) = .ok (.kobj fields) := by
  refine ⟨rfl, ?_, ?_, ?_, ?_⟩
  · simp [validateKernelObj, h1]
  · simp [validateKernelObj, h2]
  · cases v3 with
    | knull => simp [KVal.markerVal, looseEqTrue] at hv3
    | kbool b => simp [validateKernelObj, h3, hv3]
    | knum n => simp [validateKernelObj, h3, hv3]
    | kstr s => simp [validateKernelObj, h3, hv3]
    | kobj fs => simp [validateKernelObj, h3, hv3]
  · simp [validateKernelObj, hm]

/-- C8 witness: the path theorem at a concrete parse function and concrete
inputs. -/
theorem c8_validate_paths_witness :
    validateKernelObj (fun s => if s = "n" then .ok .knull
        else if s = "g" then .ok (.kobj [("isKernelObj", .mBool true)]) else .error ())
      (.kval .knull) = .error .nullDescriptor ∧
    validateKernelObj (fun s => if s = "n" then .ok .knull
        else if s = "g" then .ok (.kobj [("isKernelObj", .mBool true)]) else .error ())
      (.kval (.kstr "bad")) = .error .malformed ∧
    validateKernelObj (fun s => if s = "n" then .ok .knull
        else if s = "g" then .ok (.kobj [("isKernelObj", .mBool true)]) else .error ())
      (.kval (.kstr "n")) = .error .nullString ∧
    validateKernelObj (fun s => if s = "n" then .ok .knull
        else if s = "g" then .ok (.kobj [("isKernelObj", .mBool true)]) else .error ())
      (.kval (.kstr "g")) = .ok (.kobj [("isKernelObj", .mBool true)]) ∧
    validateKernelObj (fun s => if s = "n" then .ok .knull
        else if s = "g" then .ok (.kobj [("isKernelObj", .mBool true)]) else .error ())
      (.kval (.kobj [("isKernelObj", .mBool true), ("foo", .mNum 1)])) =
      .ok (.kobj [("isKernelObj", .mBool true), ("foo", .mNum 1)]) :=
  c8_validate_paths _ "bad" "n" "g" (.kobj [("isKernelObj", .mBool true)])
    [("isKernelObj", .mBool true), ("foo", .mNum 1)]
    (by decide) (by decide) (by decide) (by decide) (by decide)

/-- C9 counterexample: the claim says `isCanvas` returns a boolean for every
input, including undefined.  On undefined, the chain's property access
`canvasObj.nodeName` throws a TypeError instead of returning anything. -/
theorem c9_throws_on_undefined_cex :
    isCanvas .aundefined = .error () := by decide

/-- C9 (amended): `isCanvas` yields the boolean true exactly when the argument
is a non-null object exposing a truthy `nodeName` whose uppercase form is
`CANVAS` together with a `getContext` member; and it does not return a boolean
for every input: on undefined, the chain's first property access throws a
TypeError (the counterexample) instead of returning anything. -/
theorem c9_is_canvas_true_iff (arg : CanvasArg) :
    isCanvas arg = .ok (.rBool true) ↔
      ∃ o nn gc, arg = .aobj o ∧ o.nodeName = some nn ∧ nn ≠ "" ∧
        strUpper nn = "CANVAS" ∧ o.getContext = some gc := by
  cases arg with
  | anull => simp [isCanvas]
  | aundefined => simp [isCanvas]
  | astr s => simp [isCanvas]
  | anum n => simp [isCanvas]
  | aobj o =>
    cases hn : o.nodeName with
    | none => simp [isCanvas, hn]
    | some nn =>
      by_cases he : nn = ""
      · subst he
        simp [isCanvas, hn]
      · cases hg : o.getContext with
        | none => simp [isCanvas, hn, he, hg]
        | some gc => simp [isCanvas, hn, he, hg]

/-- C9 witness: the characterization applied at a mixed-case canvas object. -/
theorem c9_is_canvas_witness :
    isCanvas (.aobj ⟨some "Canvas", some ⟨none, none⟩, 0, 0⟩) = .ok (.rBool true) :=
  (c9_is_canvas_true_iff _).mpr
    ⟨⟨some "Canvas", some ⟨none, none⟩, 0, 0⟩, "Canvas", ⟨none, none⟩, rfl, rfl,
      by decide, by decide, rfl⟩

/-- C10: any object carrying an own `isActiveClone` property — re-entrant or a
fresh top-level input — is returned by `clone` as-is, by reference: the heap is
unchanged and the result is the input address; nothing is duplicated. -/
theorem c10_own_marker_returns_input_by_reference (f : Nat) (h : Heap) (a : Addr)
    (o : HObj) (hlook : h.lookup a = some o) (hm : o.hasMarker = true) :
    cloneF (f + 1) h (.vref a) = (h, .ok (.vref a)) := by
  simp [cloneF, hlook, hm]

/-- C10 witness: a fresh top-level object with an own `isActiveClone` field is
returned unchanged. -/
theorem c10_own_marker_witness :
    (⟨[(0, ⟨[("isActiveClone", .vprim 1), ("z", .vprim 2)], true⟩)], 1⟩ : Heap).lookup 0 =
      some ⟨[("isActiveClone", .vprim 1), ("z", .vprim 2)], true⟩ ∧
    (⟨[("isActiveClone", .vprim 1), ("z", .vprim 2)], true⟩ : HObj).hasMarker = true ∧
    cloneF 6 ⟨[(0, ⟨[("isActiveClone", .vprim 1), ("z", .vprim 2)], true⟩)], 1⟩ (.vref 0) =
      (⟨[(0, ⟨[("isActiveClone", .vprim 1), ("z", .vprim 2)], true⟩)], 1⟩,
       .ok (.vref 0)) :=
  ⟨by decide, by decide,
    c10_own_marker_returns_input_by_reference 5
      ⟨[(0, ⟨[("isActiveClone", .vprim 1), ("z", .vprim 2)], true⟩)], 1⟩ 0
      ⟨[("isActiveClone", .vprim 1), ("z", .vprim 2)], true⟩ (by decide) (by decide)⟩

end GpuUtilsCore
